import Mathlib

set_option maxRecDepth 1000000
set_option exponentiation.threshold 1100

/-!
Shallow embedding of the hft-socket-server message plane
(`src/message.cpp`, `src/interceptor.cpp`, `src/service_manager.cpp`,
`src/socket_server.cpp`) and proofs about its codec, validator,
interceptor chain, throttler, dispatcher queue and performance monitor.

Byte strings are `List Nat` (each entry is one `uint8_t`, so < 256 for
well-formed data).  Machine integers are `Nat` with explicit `% 2^w`
where the code truncates.  `double` fields are carried as their raw
IEEE-754 bit patterns (`Nat` < 2^64); the comparisons performed by the
validator are given an explicit IEEE semantics further down.
-/

namespace HFT

/-! ## Little-endian byte helpers

`serialize` emits a `w`-byte field with
`for i in [0,w): push_back((x >> (i*8)) & 0xFF)`; byte `i` is
`x / 256^i % 256`, which is what the recursion below produces.
`deserialize` reads it back with `v |= data[pos++] << (i*8)`;
since the byte lanes are disjoint the `|=` accumulation computes
`b0 + 256*(b1 + 256*(...))`.  An out-of-range `data[pos]` access
(undefined behaviour in the C++) is modelled as `none`. -/

def putLE : Nat → Nat → List Nat
  | 0, _ => []
  | w + 1, x => x % 256 :: putLE w (x / 256)

def readLE (data : List Nat) : Nat → Nat → Option Nat
  | _, 0 => some 0
  | pos, w + 1 =>
    match data.get? pos, readLE data (pos + 1) w with
    | some b, some v => some (b + 256 * v)
    | _, _ => none

/-- The numeric value of a little-endian byte list. -/
def leNum : List Nat → Nat
  | [] => 0
  | b :: bs => b + 256 * leNum bs

/-! ## Message records (`include/message.hpp`, `src/message.cpp`)

Field names follow the C++ members (`type_`, `priority_`,
`sequence_number_`, `timestamp_`, `client_id_`, ...).  `receive_time_`
is not part of the wire format and is omitted from the records. -/

structure Header where
  type : Nat
  priority : Nat
  sequenceNumber : Nat
  timestamp : Nat
  clientId : Nat
deriving DecidableEq

structure OrderMessage where
  hdr : Header
  orderId : Nat
  symbol : List Nat
  priceBits : Nat
  quantity : Nat
  isBuy : Bool
deriving DecidableEq

structure MarketDataMessage where
  hdr : Header
  symbol : List Nat
  bidBits : Nat
  askBits : Nat
  bidSize : Nat
  askSize : Nat
deriving DecidableEq

structure HeartbeatMessage where
  hdr : Header
deriving DecidableEq

structure ErrorMessage where
  hdr : Header
  errorCode : Nat
  errorMessage : List Nat
deriving DecidableEq

/-- The tagged union of the message objects `MessageFactory` can create. -/
inductive Msg where
  | order (m : OrderMessage)
  | marketData (m : MarketDataMessage)
  | heartbeat (m : HeartbeatMessage)
  | error (m : ErrorMessage)
deriving DecidableEq

def Msg.hdr : Msg → Header
  | .order m => m.hdr
  | .marketData m => m.hdr
  | .heartbeat m => m.hdr
  | .error m => m.hdr

/-- Decode outcomes: `truncated` models `deserialize` returning `false`,
`empty`/`unknownType` model `MessageFactory::createMessage` returning
`nullptr`, and `oob` marks an out-of-range `data[pos]` access (UB). -/
inductive DErr where
  | empty
  | unknownType
  | truncated
  | oob
deriving DecidableEq

instance {ε α : Type} [DecidableEq ε] [DecidableEq α] : DecidableEq (Except ε α) := fun x y =>
  match x, y with
  | .ok a, .ok b =>
    if h : a = b then .isTrue (by rw [h]) else .isFalse (by simp [h])
  | .error a, .error b =>
    if h : a = b then .isTrue (by rw [h]) else .isFalse (by simp [h])
  | .ok _, .error _ => .isFalse (by simp)
  | .error _, .ok _ => .isFalse (by simp)

def byteAt (data : List Nat) (pos : Nat) : Except DErr Nat :=
  match data.get? pos with
  | some b => .ok b
  | none => .error .oob

def readLEx (data : List Nat) (pos w : Nat) : Except DErr Nat :=
  match readLE data pos w with
  | some v => .ok v
  | none => .error .oob

/-! ### Serializers (`OrderMessage::serialize` etc.)

Casts to `uint8_t` become `% 256`; a `w`-byte little-endian store of `x`
emits `putLE w x` (which equals the bytes of `x % 2^(8*w)`). -/

def serializeHeader (h : Header) : List Nat :=
  h.type % 256 :: h.priority % 256 ::
    (putLE 8 h.sequenceNumber ++ putLE 8 h.timestamp ++ putLE 8 h.clientId)

def OrderMessage.serialize (m : OrderMessage) : List Nat :=
  serializeHeader m.hdr ++ putLE 8 m.orderId ++
    (m.symbol.length % 256 :: m.symbol) ++
    putLE 8 m.priceBits ++ putLE 4 m.quantity ++ [if m.isBuy then 1 else 0]

def MarketDataMessage.serialize (m : MarketDataMessage) : List Nat :=
  serializeHeader m.hdr ++ (m.symbol.length % 256 :: m.symbol) ++
    putLE 8 m.bidBits ++ putLE 8 m.askBits ++
    putLE 4 m.bidSize ++ putLE 4 m.askSize

def HeartbeatMessage.serialize (m : HeartbeatMessage) : List Nat :=
  serializeHeader m.hdr

def ErrorMessage.serialize (m : ErrorMessage) : List Nat :=
  serializeHeader m.hdr ++ putLE 4 m.errorCode ++
    (m.errorMessage.length % 256 :: m.errorMessage)

def encode : Msg → List Nat
  | .order m => m.serialize
  | .marketData m => m.serialize
  | .heartbeat m => m.serialize
  | .error m => m.serialize

/-! ### Deserializers (`OrderMessage::deserialize` etc.)

Each function mirrors the C++ control flow: the initial minimum-size
check (`return false` becomes `.error .truncated`), then sequential
reads at the positions the running `pos` variable takes.  Reads the C++
performs with no bounds check surface `.error .oob` when out of range. -/

def deserializeOrder (data : List Nat) : Except DErr OrderMessage := do
  if data.length < 50 then throw .truncated
  let ty ← byteAt data 0
  let pr ← byteAt data 1
  let seq ← readLEx data 2 8
  let ts ← readLEx data 10 8
  let cid ← readLEx data 18 8
  let oid ← readLEx data 26 8
  let symLen ← byteAt data 34
  if 35 + symLen > data.length then throw .truncated
  let sym := (data.drop 35).take symLen
  let priceBits ← readLEx data (35 + symLen) 8
  let qty ← readLEx data (43 + symLen) 4
  -- `if (pos < data.size()) is_buy_ = data[pos] != 0;`
  -- (the default-constructed object has `is_buy_ = true`)
  let isBuy := match data.get? (47 + symLen) with
    | some b => b ≠ 0
    | none => true
  pure { hdr := ⟨ty, pr, seq, ts, cid⟩, orderId := oid, symbol := sym,
         priceBits := priceBits, quantity := qty, isBuy := isBuy }

def deserializeMarketData (data : List Nat) : Except DErr MarketDataMessage := do
  if data.length < 50 then throw .truncated
  let ty ← byteAt data 0
  let pr ← byteAt data 1
  let seq ← readLEx data 2 8
  let ts ← readLEx data 10 8
  let cid ← readLEx data 18 8
  let symLen ← byteAt data 26
  if 27 + symLen > data.length then throw .truncated
  let sym := (data.drop 27).take symLen
  let bidBits ← readLEx data (27 + symLen) 8
  let askBits ← readLEx data (35 + symLen) 8
  let bidSize ← readLEx data (43 + symLen) 4
  let askSize ← readLEx data (47 + symLen) 4
  pure { hdr := ⟨ty, pr, seq, ts, cid⟩, symbol := sym, bidBits := bidBits,
         askBits := askBits, bidSize := bidSize, askSize := askSize }

def deserializeHeartbeat (data : List Nat) : Except DErr HeartbeatMessage := do
  if data.length < 26 then throw .truncated
  let ty ← byteAt data 0
  let pr ← byteAt data 1
  let seq ← readLEx data 2 8
  let ts ← readLEx data 10 8
  let cid ← readLEx data 18 8
  pure { hdr := ⟨ty, pr, seq, ts, cid⟩ }

def deserializeError (data : List Nat) : Except DErr ErrorMessage := do
  if data.length < 30 then throw .truncated
  let ty ← byteAt data 0
  let pr ← byteAt data 1
  let seq ← readLEx data 2 8
  let ts ← readLEx data 10 8
  let cid ← readLEx data 18 8
  let code ← readLEx data 26 4
  -- `if (pos < size) { msg_len = data[pos++]; if (pos + msg_len <= size) ... }`
  -- the error_message_ member stays default-empty otherwise, and the
  -- function returns true regardless.
  let msg := match data.get? 30 with
    | some msgLen =>
      if 31 + msgLen ≤ data.length then (data.drop 31).take msgLen else []
    | none => []
  pure { hdr := ⟨ty, pr, seq, ts, cid⟩, errorCode := code, errorMessage := msg }

/-- `MessageHandler` decode path: `MessageFactory::createMessage(data)`
selects the object by the leading byte (ORDER_NEW..ORDER_FILL = 1..4 all
construct an `OrderMessage`; LOGIN/LOGOUT and unknown bytes yield
`nullptr`), then the object's `deserialize` runs on the same bytes. -/
def decode (data : List Nat) : Except DErr Msg :=
  match data.get? 0 with
  | none => .error .empty
  | some t =>
    if t = 1 ∨ t = 2 ∨ t = 3 ∨ t = 4 then Msg.order <$> deserializeOrder data
    else if t = 5 then Msg.marketData <$> deserializeMarketData data
    else if t = 6 then Msg.heartbeat <$> deserializeHeartbeat data
    else if t = 9 then Msg.error <$> deserializeError data
    else .error .unknownType

/-! ## IEEE-754 double semantics for the validator's comparisons

The validator compares `double` members (`price_ <= 0.0`,
`bid_ < 0.0`, `bid_ >= ask_`).  A 64-bit pattern denotes `-inf`, `+inf`,
a finite rational, or NaN (`none`); IEEE comparisons are the rational
comparisons on the denoted values and are `false` whenever either
operand is NaN.  (`-0.0` denotes the rational 0, so `-0.0 == 0.0` holds
as in IEEE.) -/

inductive DVal where
  | negInf
  | fin (q : ℚ)
  | posInf
deriving DecidableEq

def dvalLe : DVal → DVal → Bool
  | .negInf, _ => true
  | _, .posInf => true
  | .posInf, _ => false
  | _, .negInf => false
  | .fin x, .fin y => decide (x ≤ y)

def dvalLt : DVal → DVal → Bool
  | _, .negInf => false
  | .negInf, _ => true
  | .posInf, _ => false
  | _, .posInf => true
  | .fin x, .fin y => decide (x < y)

def bitsToDVal (b : Nat) : Option DVal :=
  let s : Nat := b / 2 ^ 63 % 2
  let e : Nat := b / 2 ^ 52 % 2 ^ 11
  let m : Nat := b % 2 ^ 52
  if e = 2047 then
    if m = 0 then some (if s = 1 then .negInf else .posInf) else none
  else
    let mag : ℚ :=
      if e = 0 then (m : ℚ) / ((2 ^ 1074 : Nat) : ℚ)
      else ((2 ^ 52 + m : Nat) : ℚ) * ((2 ^ e : Nat) : ℚ) / ((2 ^ 1075 : Nat) : ℚ)
    some (.fin (if s = 1 then -mag else mag))

def dLe (a b : Nat) : Bool :=
  match bitsToDVal a, bitsToDVal b with
  | some x, some y => dvalLe x y
  | _, _ => false

def dLt (a b : Nat) : Bool :=
  match bitsToDVal a, bitsToDVal b with
  | some x, some y => dvalLt x y
  | _, _ => false

/-- IEEE `a >= b` (false when either side is NaN). -/
def dGe (a b : Nat) : Bool := dLe b a

/-! ## Interceptor context and chain (`include/interceptor.hpp`,
`src/interceptor.cpp`)

The context owns the message and a string-to-string metadata map;
`setMetadata` overwrites, `getMetadata` returns `""` when the key is
absent.  The map is modelled as an association list where the newest
binding for a key shadows older ones.  The monotonic timer pair is real
time and is not modelled. -/

def Metadata := List (String × String)

def setMeta (md : Metadata) (k v : String) : Metadata := (k, v) :: md

def getMeta (md : Metadata) (k : String) : String :=
  match md.find? (fun p => p.1 == k) with
  | some p => p.2
  | none => ""

structure InterceptorContext where
  message : Option Msg
  metadata : Metadata

/-- An interceptor maps a context to a `(continue?, updated context)`
pair (`IInterceptor::intercept` returns `bool` and mutates `ctx`). -/
def Interceptor := InterceptorContext → Bool × InterceptorContext

/-- `InterceptorChain::process`: run in insertion order, halt and return
`false` on the first interceptor that returns `false`. -/
def processChain : List Interceptor → InterceptorContext → Bool × InterceptorContext
  | [], ctx => (true, ctx)
  | i :: rest, ctx =>
    let r := i ctx
    if r.1 then processChain rest r.2 else (false, r.2)

def withError (ctx : InterceptorContext) (e : String) : Bool × InterceptorContext :=
  (false, { ctx with metadata := setMeta ctx.metadata "error" e })

/-- The kind-specific validation switch.  The C++ `dynamic_pointer_cast`
succeeds exactly when the object really is of the downcast class, i.e.
when the `Msg` variant matches; otherwise the checks are skipped.
Returns the error string of the first failing check. -/
def kindCheck (m : Msg) : Option String :=
  if m.hdr.type = 1 ∨ m.hdr.type = 2 ∨ m.hdr.type = 3 then
    match m with
    | .order om =>
      if om.orderId = 0 then some "Invalid order ID"
      else if om.symbol = [] then some "Empty symbol"
      else if dLe om.priceBits 0 then some "Invalid price"
      else if om.quantity = 0 then some "Invalid quantity"
      else none
    | _ => none
  else if m.hdr.type = 5 then
    match m with
    | .marketData md =>
      if md.symbol = [] then some "Empty symbol"
      else if dLt md.bidBits 0 || dLt md.askBits 0 then some "Invalid bid/ask"
      else if dGe md.bidBits md.askBits then some "Bid >= Ask"
      else none
    | _ => none
  else none

/-- `ValidationInterceptor::intercept`. -/
def validationIntercept (ctx : InterceptorContext) : Bool × InterceptorContext :=
  match ctx.message with
  | none => withError ctx "Null message"
  | some m =>
    if m.hdr.sequenceNumber = 0 then withError ctx "Invalid sequence number"
    else if m.hdr.timestamp = 0 then withError ctx "Invalid timestamp"
    else
      match kindCheck m with
      | some e => withError ctx e
      | none => (true, { ctx with metadata := setMeta ctx.metadata "validation" "passed" })

/-! ## Throttling interceptor (`ThrottlingInterceptor::intercept`)

State is `(last_check_, message_count_)`; `now` (steady clock,
milliseconds) is passed explicitly.  `elapsed` uses truncated `Nat`
subtraction (the steady clock never runs backwards). -/

structure ThrottleState where
  lastCheck : Nat
  messageCount : Nat
deriving DecidableEq

def throttlingIntercept (maxPerSecond : Nat) (now : Nat) (st : ThrottleState)
    (ctx : InterceptorContext) : ThrottleState × Bool × InterceptorContext :=
  let elapsed := now - st.lastCheck
  let st1 := if elapsed ≥ 1000 then ⟨now, 0⟩ else st
  if st1.messageCount ≥ maxPerSecond then
    (st1, false, { ctx with metadata := setMeta ctx.metadata "throttled" "Rate limit exceeded" })
  else
    (⟨st1.lastCheck, st1.messageCount + 1⟩, true,
     { ctx with metadata := setMeta ctx.metadata "throttle_status" "accepted" })

/-- Fold the throttler over a list of arrival times, collecting the
accept/reject verdicts. -/
def throttleRun (maxPerSecond : Nat) (st : ThrottleState) :
    List Nat → ThrottleState × List Bool
  | [] => (st, [])
  | t :: ts =>
    let s := throttlingIntercept maxPerSecond t st ⟨none, []⟩
    let r := throttleRun maxPerSecond s.1 ts
    (r.1, s.2.1 :: r.2)

/-! ## Message construction (`Message::Message`)

`sequence_number_ = global_sequence_counter_.fetch_add(1)` assigns the
*previous* value of the process-wide counter (initialised to 0) and
bumps the counter.  Modelled as an explicit counter-passing function
returning the constructed header and the new counter. -/

def constructMessage (type priority globalSeqCounter timestampNow : Nat) :
    Header × Nat :=
  (⟨type, priority, globalSeqCounter, timestampNow, 0⟩, globalSeqCounter + 1)

/-! ## Dispatcher queue (`ServiceManager::sendMessage`)

`message_queue_` is a plain `std::queue`; `sendMessage` returns `void`,
ignores the queue size and appends unconditionally (after the null
check `if (!message) return;`). -/

def sendMessage (queue : List (String × Msg)) (serviceName : String)
    (message : Option Msg) : List (String × Msg) :=
  match message with
  | none => queue
  | some m => queue ++ [(serviceName, m)]

/-! ## Performance monitor (`PerformanceMonitor`, `src/socket_server.cpp`)

Samples are `double` latencies; every arithmetic step of the monitor is
an IEEE-754 double operation.  Finite doubles are rationals; `roundD`
rounds an exact rational result to the nearest double (ties to even),
which is the IEEE semantics of `+`, `*`, `/` on normal-range values
(overflow to infinity and subnormal precision loss are outside the
range exercised here and are not modelled). -/

def log2fuel : Nat → Nat → Nat
  | 0, _ => 0
  | fuel + 1, n => if n < 2 then 0 else log2fuel fuel (n / 2) + 1

def clog2fuel : Nat → Nat → Nat
  | 0, _ => 0
  | fuel + 1, n => if n ≤ 1 then 0 else clog2fuel fuel ((n + 1) / 2) + 1

/-- `⌊log₂ q⌋` for positive `q` (fuel covers the double exponent range). -/
def floorLog2 (q : ℚ) : Int :=
  if 1 ≤ q then (log2fuel 1100 (Int.toNat ⌊q⌋) : Int)
  else -(clog2fuel 1100 (Int.toNat ⌈q⁻¹⌉) : Int)

/-- Round to nearest integer, ties to even. -/
def rne (x : ℚ) : Int :=
  let f := ⌊x⌋
  let r := x - (f : ℚ)
  if r < 1 / 2 then f
  else if 1 / 2 < r then f + 1
  else if f % 2 = 0 then f else f + 1

def roundPos (q : ℚ) : ℚ :=
  let k := floorLog2 q
  let scale : ℚ :=
    if 0 ≤ 52 - k then ((2 ^ (52 - k).toNat : Nat) : ℚ)
    else (((2 ^ (k - 52).toNat : Nat) : ℚ))⁻¹
  (rne (q * scale) : ℚ) / scale

/-- Round an exact rational to the nearest representable double. -/
def roundD (q : ℚ) : ℚ :=
  if q = 0 then 0 else if q < 0 then -(roundPos (-q)) else roundPos q

def dAdd (a b : ℚ) : ℚ := roundD (a + b)
def dMul (a b : ℚ) : ℚ := roundD (a * b)
def dDiv (a b : ℚ) : ℚ := roundD (a / b)

/-- The double literal `0.95` of the source. -/
def lit095 : ℚ := roundD (19 / 20)

/-- The double literal `0.99` of the source. -/
def lit099 : ℚ := roundD (99 / 100)

def MAX_SAMPLES : Nat := 100000

/-- `PerformanceMonitor::recordLatency`: FIFO-evict when full, append. -/
def recordLatency (samples : List ℚ) (v : ℚ) : List ℚ :=
  if samples.length ≥ MAX_SAMPLES then samples.drop 1 ++ [v] else samples ++ [v]

/-- `PerformanceMonitor::getAverageLatency`: 0 when empty, otherwise
`std::accumulate(begin, end, 0.0)` (a left fold of double additions)
divided by the sample count (`size_t`→`double` conversion is exact in
the modelled range). -/
def getAverageLatency (samples : List ℚ) : ℚ :=
  if samples = [] then 0
  else dDiv (samples.foldl dAdd 0) (samples.length : ℚ)

/-- `PerformanceMonitor::getP95Latency`: below 20 samples fall back to
the average; otherwise sort a snapshot ascending and index it with
`static_cast<size_t>(size * 0.95)` (truncation of the double product).
`std::sort` is modelled as insertion sort; `sorted_samples[index]` is an
unchecked vector access, rendered total with a default of 0. -/
def getP95Latency (samples : List ℚ) : ℚ :=
  if samples.length < 20 then getAverageLatency samples
  else
    let sorted := samples.insertionSort (· ≤ ·)
    let index := (⌊dMul (samples.length : ℚ) lit095⌋).toNat
    sorted.getD index 0

/-- `PerformanceMonitor::getP99Latency` (fallback below 100 samples). -/
def getP99Latency (samples : List ℚ) : ℚ :=
  if samples.length < 100 then getAverageLatency samples
  else
    let sorted := samples.insertionSort (· ≤ ·)
    let index := (⌊dMul (samples.length : ℚ) lit099⌋).toNat
    sorted.getD index 0

/-- The sample multiset {1 µs, ..., 100 µs} recorded in order into an
empty monitor. -/
def samples100 : List ℚ :=
  (List.range 100).foldl (fun s i => recordLatency s ((i + 1 : Nat) : ℚ)) []

/-! ## Validity (§3 invariants of the data model)

A "validly constructed" message: representation bounds come from the
C++ member types (`uint64_t`, `uint32_t`, `uint8_t` lengths, byte
strings), the rest are the documented invariants (non-empty symbol,
non-zero order id, positive price, positive quantity; `bid < ask`,
both non-negative, for market data). -/

def ValidHeader (h : Header) : Prop :=
  h.priority < 256 ∧ h.sequenceNumber < 2 ^ 64 ∧ h.timestamp < 2 ^ 64 ∧
    h.clientId < 2 ^ 64

def ValidOrder (m : OrderMessage) : Prop :=
  (m.hdr.type = 1 ∨ m.hdr.type = 2 ∨ m.hdr.type = 3 ∨ m.hdr.type = 4) ∧
    ValidHeader m.hdr ∧
    m.orderId < 2 ^ 64 ∧ m.orderId ≠ 0 ∧
    m.symbol ≠ [] ∧ m.symbol.length ≤ 255 ∧ (∀ b ∈ m.symbol, b < 256) ∧
    m.priceBits < 2 ^ 64 ∧ dLt 0 m.priceBits = true ∧
    m.quantity < 2 ^ 32 ∧ m.quantity ≠ 0

def ValidMarketData (m : MarketDataMessage) : Prop :=
  m.hdr.type = 5 ∧ ValidHeader m.hdr ∧
    m.symbol.length ≤ 255 ∧ (∀ b ∈ m.symbol, b < 256) ∧
    m.bidBits < 2 ^ 64 ∧ m.askBits < 2 ^ 64 ∧
    dLe 0 m.bidBits = true ∧ dLe 0 m.askBits = true ∧
    dLt m.bidBits m.askBits = true ∧
    m.bidSize < 2 ^ 32 ∧ m.askSize < 2 ^ 32

def ValidHeartbeat (m : HeartbeatMessage) : Prop :=
  m.hdr.type = 6 ∧ ValidHeader m.hdr

def ValidError (m : ErrorMessage) : Prop :=
  m.hdr.type = 9 ∧ ValidHeader m.hdr ∧ m.errorCode < 2 ^ 32 ∧
    m.errorMessage.length ≤ 255 ∧ (∀ b ∈ m.errorMessage, b < 256)

def ValidMsg : Msg → Prop
  | .order m => ValidOrder m
  | .marketData m => ValidMarketData m
  | .heartbeat m => ValidHeartbeat m
  | .error m => ValidError m

/-- The encoded frame size as a function of the message alone (the
"byte-length determinism" of the codec). -/
def encodedLength : Msg → Nat
  | .order m => 48 + m.symbol.length
  | .marketData m => 51 + m.symbol.length
  | .heartbeat _ => 26
  | .error m => 31 + m.errorMessage.length

/-! ## Helper lemmas: the little-endian codec -/

theorem exceptBindOk {α β : Type} (a : α) (f : α → Except DErr β) :
    ((Except.ok a : Except DErr α) >>= f) = f a := rfl

theorem exceptBindErr {α β : Type} (e : DErr) (f : α → Except DErr β) :
    ((Except.error e : Except DErr α) >>= f) = Except.error e := rfl

theorem exceptMapOk {α β : Type} (g : α → β) (a : α) :
    (g <$> (Except.ok a : Except DErr α)) = Except.ok (g a) := rfl

theorem exceptMapErr {α β : Type} (g : α → β) (e : DErr) :
    (g <$> (Except.error e : Except DErr α)) = (Except.error e : Except DErr β) := rfl

theorem exceptPureEq {α : Type} (a : α) :
    (pure a : Except DErr α) = Except.ok a := rfl

theorem putLE_length (w x : Nat) : (putLE w x).length = w := by
  induction w generalizing x with
  | zero => simp [putLE]
  | succ w ih => simp [putLE, ih]

theorem mod_mul_split (x b : Nat) (hb : 0 < b) :
    x % (256 * b) = x % 256 + 256 * (x / 256 % b) := by
  conv_lhs => rw [← Nat.div_add_mod x 256]
  rw [Nat.add_mod, Nat.mul_mod_mul_left]
  have h1 : x % 256 < 256 * b := lt_of_lt_of_le (Nat.mod_lt _ (by omega))
    (Nat.le_mul_of_pos_right 256 hb)
  rw [Nat.mod_eq_of_lt h1]
  have h2 : x / 256 % b < b := Nat.mod_lt _ hb
  have h3 : 256 * (x / 256 % b) + x % 256 < 256 * b := by
    have hx : x % 256 < 256 := Nat.mod_lt _ (by omega)
    calc 256 * (x / 256 % b) + x % 256 < 256 * (x / 256 % b) + 256 := by omega
    _ = 256 * (x / 256 % b + 1) := by ring
    _ ≤ 256 * b := Nat.mul_le_mul_left _ (by omega)
  rw [Nat.mod_eq_of_lt h3]
  omega

theorem leNum_putLE (w x : Nat) : leNum (putLE w x) = x % 256 ^ w := by
  induction w generalizing x with
  | zero => simp [putLE, leNum, Nat.mod_one]
  | succ w ih =>
    rw [putLE, leNum, ih, pow_succ']
    exact (mod_mul_split x (256 ^ w) (Nat.pos_pow_of_pos w (by omega))).symm

theorem readLE_cons_succ (a : Nat) (l : List Nat) (pos w : Nat) :
    readLE (a :: l) (pos + 1) w = readLE l pos w := by
  induction w generalizing pos with
  | zero => rfl
  | succ w ih => rw [readLE, readLE, List.get?_cons_succ, ih]

theorem readLE_here (mid l2 : List Nat) (w : Nat) (hw : mid.length = w) :
    readLE (mid ++ l2) 0 w = some (leNum mid) := by
  induction mid generalizing w with
  | nil => subst hw; rfl
  | cons b mid ih =>
    subst hw
    rw [List.cons_append, List.length_cons, readLE, readLE_cons_succ,
      ih _ rfl]
    rfl

theorem readLE_field (l1 mid l2 : List Nat) (pos w : Nat)
    (hpos : l1.length = pos) (hw : mid.length = w) :
    readLE (l1 ++ (mid ++ l2)) pos w = some (leNum mid) := by
  subst hpos
  induction l1 with
  | nil => exact readLE_here mid l2 w hw
  | cons a l1 ih => rw [List.cons_append, List.length_cons, readLE_cons_succ, ih]

theorem get?_field (l1 : List Nat) (c : Nat) (l2 : List Nat) (pos : Nat)
    (hpos : l1.length = pos) :
    (l1 ++ (c :: l2)).get? pos = some c := by
  subst hpos
  rw [List.get?_append_right (Nat.le_refl _), Nat.sub_self]
  rfl

theorem dropTake_field (l1 mid l2 : List Nat) (pos w : Nat)
    (hpos : l1.length = pos) (hw : mid.length = w) :
    ((l1 ++ (mid ++ l2)).drop pos).take w = mid := by
  subst hpos hw
  rw [List.drop_left, List.take_left]

theorem readLEx_field (l1 mid l2 : List Nat) (pos w : Nat)
    (hpos : l1.length = pos) (hw : mid.length = w) :
    readLEx (l1 ++ (mid ++ l2)) pos w = .ok (leNum mid) := by
  rw [readLEx, readLE_field l1 mid l2 pos w hpos hw]

theorem byteAt_field (l1 : List Nat) (c : Nat) (l2 : List Nat) (pos : Nat)
    (hpos : l1.length = pos) :
    byteAt (l1 ++ (c :: l2)) pos = .ok c := by
  rw [byteAt, get?_field l1 c l2 pos hpos]


theorem deserializeOrder_append (t p seq ts cid oid : Nat) (sym : List Nat)
    (pb qty buy : Nat) (h2 : 2 ≤ sym.length) (h255 : sym.length ≤ 255) :
    deserializeOrder (t :: p :: (putLE 8 seq ++ (putLE 8 ts ++ (putLE 8 cid ++
        (putLE 8 oid ++ (sym.length % 256 :: (sym ++ (putLE 8 pb ++
        (putLE 4 qty ++ [buy]))))))))) =
      .ok ⟨⟨t, p, seq % 256 ^ 8, ts % 256 ^ 8, cid % 256 ^ 8⟩, oid % 256 ^ 8,
        sym, pb % 256 ^ 8, qty % 256 ^ 4, decide (buy ≠ 0)⟩ := by
  set data := t :: p :: (putLE 8 seq ++ (putLE 8 ts ++ (putLE 8 cid ++
      (putLE 8 oid ++ (sym.length % 256 :: (sym ++ (putLE 8 pb ++
      (putLE 4 qty ++ [buy])))))))) with hdata
  have hLmod : sym.length % 256 = sym.length := Nat.mod_eq_of_lt (by omega)
  have hlen : data.length = 48 + sym.length := by
    simp [hdata, putLE_length]; omega
  have h0 : byteAt data 0 = .ok t := byteAt_field [] _ _ 0 rfl
  have h1 : byteAt data 1 = .ok p := byteAt_field [t] _ _ 1 rfl
  have hseq : readLEx data 2 8 = .ok (leNum (putLE 8 seq)) :=
    readLEx_field [t, p] _ _ 2 8 rfl (putLE_length _ _)
  have hts : readLEx data 10 8 = .ok (leNum (putLE 8 ts)) := by
    rw [show data = (t :: p :: putLE 8 seq) ++ (putLE 8 ts ++ (putLE 8 cid ++
      (putLE 8 oid ++ (sym.length % 256 :: (sym ++ (putLE 8 pb ++
      (putLE 4 qty ++ [buy]))))))) from by simp [hdata]]
    exact readLEx_field _ _ _ 10 8 (by simp [putLE_length]) (putLE_length _ _)
  have hcid : readLEx data 18 8 = .ok (leNum (putLE 8 cid)) := by
    rw [show data = (t :: p :: (putLE 8 seq ++ putLE 8 ts)) ++ (putLE 8 cid ++
      (putLE 8 oid ++ (sym.length % 256 :: (sym ++ (putLE 8 pb ++
      (putLE 4 qty ++ [buy])))))) from by simp [hdata]]
    exact readLEx_field _ _ _ 18 8 (by simp [putLE_length]) (putLE_length _ _)
  have hoid : readLEx data 26 8 = .ok (leNum (putLE 8 oid)) := by
    rw [show data = (t :: p :: (putLE 8 seq ++ putLE 8 ts ++ putLE 8 cid)) ++
      (putLE 8 oid ++ (sym.length % 256 :: (sym ++ (putLE 8 pb ++
      (putLE 4 qty ++ [buy]))))) from by simp [hdata]]
    exact readLEx_field _ _ _ 26 8 (by simp [putLE_length]) (putLE_length _ _)
  have hsl : byteAt data 34 = .ok (sym.length % 256) := by
    rw [show data = (t :: p :: (putLE 8 seq ++ putLE 8 ts ++ putLE 8 cid ++
      putLE 8 oid)) ++ (sym.length % 256 :: (sym ++ (putLE 8 pb ++
      (putLE 4 qty ++ [buy])))) from by simp [hdata]]
    exact byteAt_field _ _ _ 34 (by simp [putLE_length])
  have hsym : ((data.drop 35).take (sym.length % 256)) = sym := by
    rw [show data = (t :: p :: (putLE 8 seq ++ putLE 8 ts ++ putLE 8 cid ++
      putLE 8 oid ++ [sym.length % 256])) ++ (sym ++ (putLE 8 pb ++
      (putLE 4 qty ++ [buy]))) from by simp [hdata]]
    rw [hLmod]
    exact dropTake_field _ _ _ 35 _ (by simp [putLE_length]) rfl
  have hpb : readLEx data (35 + sym.length % 256) 8 = .ok (leNum (putLE 8 pb)) := by
    rw [show data = (t :: p :: (putLE 8 seq ++ putLE 8 ts ++ putLE 8 cid ++
      putLE 8 oid ++ (sym.length % 256 :: sym))) ++ (putLE 8 pb ++
      (putLE 4 qty ++ [buy])) from by simp [hdata]]
    exact readLEx_field _ _ _ _ 8 (by simp [putLE_length]; omega) (putLE_length _ _)
  have hqty : readLEx data (43 + sym.length % 256) 4 = .ok (leNum (putLE 4 qty)) := by
    rw [show data = (t :: p :: (putLE 8 seq ++ putLE 8 ts ++ putLE 8 cid ++
      putLE 8 oid ++ (sym.length % 256 :: sym) ++ putLE 8 pb)) ++
      (putLE 4 qty ++ [buy]) from by simp [hdata]]
    exact readLEx_field _ _ _ _ 4 (by simp [putLE_length]; omega) (putLE_length _ _)
  have hbuy : data.get? (47 + sym.length % 256) = some buy := by
    rw [show data = (t :: p :: (putLE 8 seq ++ putLE 8 ts ++ putLE 8 cid ++
      putLE 8 oid ++ (sym.length % 256 :: sym) ++ putLE 8 pb ++ putLE 4 qty)) ++
      (buy :: []) from by simp [hdata]]
    exact get?_field _ _ _ _ (by simp [putLE_length]; omega)
  rw [deserializeOrder]
  rw [if_neg (by omega)]
  rw [h0, exceptBindOk, h1, exceptBindOk, hseq, exceptBindOk, hts, exceptBindOk,
    hcid, exceptBindOk, hoid, exceptBindOk, hsl, exceptBindOk]
  rw [if_neg (by omega)]
  rw [hsym, hpb, exceptBindOk, hqty, exceptBindOk, hbuy]
  rw [exceptPureEq]
  simp only [leNum_putLE, hLmod]
  rfl
theorem deserializeMarketData_append (t p seq ts cid : Nat) (sym : List Nat)
    (bb ab bs as : Nat) (h255 : sym.length ≤ 255) :
    deserializeMarketData (t :: p :: (putLE 8 seq ++ (putLE 8 ts ++ (putLE 8 cid ++
        (sym.length % 256 :: (sym ++ (putLE 8 bb ++ (putLE 8 ab ++
        (putLE 4 bs ++ putLE 4 as))))))))) =
      .ok ⟨⟨t, p, seq % 256 ^ 8, ts % 256 ^ 8, cid % 256 ^ 8⟩, sym,
        bb % 256 ^ 8, ab % 256 ^ 8, bs % 256 ^ 4, as % 256 ^ 4⟩ := by
  set data := t :: p :: (putLE 8 seq ++ (putLE 8 ts ++ (putLE 8 cid ++
      (sym.length % 256 :: (sym ++ (putLE 8 bb ++ (putLE 8 ab ++
      (putLE 4 bs ++ putLE 4 as)))))))) with hdata
  have hLmod : sym.length % 256 = sym.length := Nat.mod_eq_of_lt (by omega)
  have hlen : data.length = 51 + sym.length := by
    simp [hdata, putLE_length]; omega
  have h0 : byteAt data 0 = .ok t := byteAt_field [] _ _ 0 rfl
  have h1 : byteAt data 1 = .ok p := byteAt_field [t] _ _ 1 rfl
  have hseq : readLEx data 2 8 = .ok (leNum (putLE 8 seq)) :=
    readLEx_field [t, p] _ _ 2 8 rfl (putLE_length _ _)
  have hts : readLEx data 10 8 = .ok (leNum (putLE 8 ts)) := by
    rw [show data = (t :: p :: putLE 8 seq) ++ (putLE 8 ts ++ (putLE 8 cid ++
      (sym.length % 256 :: (sym ++ (putLE 8 bb ++ (putLE 8 ab ++
      (putLE 4 bs ++ putLE 4 as))))))) from by simp [hdata]]
    exact readLEx_field _ _ _ 10 8 (by simp [putLE_length]) (putLE_length _ _)
  have hcid : readLEx data 18 8 = .ok (leNum (putLE 8 cid)) := by
    rw [show data = (t :: p :: (putLE 8 seq ++ putLE 8 ts)) ++ (putLE 8 cid ++
      (sym.length % 256 :: (sym ++ (putLE 8 bb ++ (putLE 8 ab ++
      (putLE 4 bs ++ putLE 4 as)))))) from by simp [hdata]]
    exact readLEx_field _ _ _ 18 8 (by simp [putLE_length]) (putLE_length _ _)
  have hsl : byteAt data 26 = .ok (sym.length % 256) := by
    rw [show data = (t :: p :: (putLE 8 seq ++ putLE 8 ts ++ putLE 8 cid)) ++
      (sym.length % 256 :: (sym ++ (putLE 8 bb ++ (putLE 8 ab ++
      (putLE 4 bs ++ putLE 4 as))))) from by simp [hdata]]
    exact byteAt_field _ _ _ 26 (by simp [putLE_length])
  have hsym : ((data.drop 27).take (sym.length % 256)) = sym := by
    rw [show data = (t :: p :: (putLE 8 seq ++ putLE 8 ts ++ putLE 8 cid ++
      [sym.length % 256])) ++ (sym ++ (putLE 8 bb ++ (putLE 8 ab ++
      (putLE 4 bs ++ putLE 4 as)))) from by simp [hdata]]
    rw [hLmod]
    exact dropTake_field _ _ _ 27 _ (by simp [putLE_length]) rfl
  have hbb : readLEx data (27 + sym.length % 256) 8 = .ok (leNum (putLE 8 bb)) := by
    rw [show data = (t :: p :: (putLE 8 seq ++ putLE 8 ts ++ putLE 8 cid ++
      (sym.length % 256 :: sym))) ++ (putLE 8 bb ++ (putLE 8 ab ++
      (putLE 4 bs ++ putLE 4 as))) from by simp [hdata]]
    exact readLEx_field _ _ _ _ 8 (by simp [putLE_length]; omega) (putLE_length _ _)
  have hab : readLEx data (35 + sym.length % 256) 8 = .ok (leNum (putLE 8 ab)) := by
    rw [show data = (t :: p :: (putLE 8 seq ++ putLE 8 ts ++ putLE 8 cid ++
      (sym.length % 256 :: sym) ++ putLE 8 bb)) ++ (putLE 8 ab ++
      (putLE 4 bs ++ putLE 4 as)) from by simp [hdata]]
    exact readLEx_field _ _ _ _ 8 (by simp [putLE_length]; omega) (putLE_length _ _)
  have hbs : readLEx data (43 + sym.length % 256) 4 = .ok (leNum (putLE 4 bs)) := by
    rw [show data = (t :: p :: (putLE 8 seq ++ putLE 8 ts ++ putLE 8 cid ++
      (sym.length % 256 :: sym) ++ putLE 8 bb ++ putLE 8 ab)) ++
      (putLE 4 bs ++ putLE 4 as) from by simp [hdata]]
    exact readLEx_field _ _ _ _ 4 (by simp [putLE_length]; omega) (putLE_length _ _)
  have has : readLEx data (47 + sym.length % 256) 4 = .ok (leNum (putLE 4 as)) := by
    rw [show data = (t :: p :: (putLE 8 seq ++ putLE 8 ts ++ putLE 8 cid ++
      (sym.length % 256 :: sym) ++ putLE 8 bb ++ putLE 8 ab ++ putLE 4 bs)) ++
      (putLE 4 as ++ []) from by simp [hdata]]
    exact readLEx_field _ _ _ _ 4 (by simp [putLE_length]; omega) (putLE_length _ _)
  rw [deserializeMarketData]
  rw [if_neg (by omega)]
  rw [h0, exceptBindOk, h1, exceptBindOk, hseq, exceptBindOk, hts, exceptBindOk,
    hcid, exceptBindOk, hsl, exceptBindOk]
  rw [if_neg (by omega)]
  rw [hsym, hbb, exceptBindOk, hab, exceptBindOk, hbs, exceptBindOk, has,
    exceptBindOk]
  rw [exceptPureEq]
  simp only [leNum_putLE, hLmod]
  rfl

theorem deserializeHeartbeat_append (t p seq ts cid : Nat) :
    deserializeHeartbeat (t :: p :: (putLE 8 seq ++ (putLE 8 ts ++ putLE 8 cid))) =
      .ok ⟨⟨t, p, seq % 256 ^ 8, ts % 256 ^ 8, cid % 256 ^ 8⟩⟩ := by
  set data := t :: p :: (putLE 8 seq ++ (putLE 8 ts ++ putLE 8 cid)) with hdata
  have hlen : data.length = 26 := by simp [hdata, putLE_length]
  have h0 : byteAt data 0 = .ok t := byteAt_field [] _ _ 0 rfl
  have h1 : byteAt data 1 = .ok p := byteAt_field [t] _ _ 1 rfl
  have hseq : readLEx data 2 8 = .ok (leNum (putLE 8 seq)) :=
    readLEx_field [t, p] _ _ 2 8 rfl (putLE_length _ _)
  have hts : readLEx data 10 8 = .ok (leNum (putLE 8 ts)) := by
    rw [show data = (t :: p :: putLE 8 seq) ++ (putLE 8 ts ++ (putLE 8 cid ++ []))
      from by simp [hdata]]
    exact readLEx_field _ _ _ 10 8 (by simp [putLE_length]) (putLE_length _ _)
  have hcid : readLEx data 18 8 = .ok (leNum (putLE 8 cid)) := by
    rw [show data = (t :: p :: (putLE 8 seq ++ putLE 8 ts)) ++ (putLE 8 cid ++ [])
      from by simp [hdata]]
    exact readLEx_field _ _ _ 18 8 (by simp [putLE_length]) (putLE_length _ _)
  rw [deserializeHeartbeat]
  rw [if_neg (by omega)]
  rw [h0, exceptBindOk, h1, exceptBindOk, hseq, exceptBindOk, hts, exceptBindOk,
    hcid, exceptBindOk]
  rw [exceptPureEq]
  simp only [leNum_putLE]
  rfl

theorem deserializeError_append (t p seq ts cid code : Nat) (msg : List Nat)
    (h255 : msg.length ≤ 255) :
    deserializeError (t :: p :: (putLE 8 seq ++ (putLE 8 ts ++ (putLE 8 cid ++
        (putLE 4 code ++ (msg.length % 256 :: msg)))))) =
      .ok ⟨⟨t, p, seq % 256 ^ 8, ts % 256 ^ 8, cid % 256 ^ 8⟩, code % 256 ^ 4,
        msg⟩ := by
  set data := t :: p :: (putLE 8 seq ++ (putLE 8 ts ++ (putLE 8 cid ++
      (putLE 4 code ++ (msg.length % 256 :: msg))))) with hdata
  have hLmod : msg.length % 256 = msg.length := Nat.mod_eq_of_lt (by omega)
  have hlen : data.length = 31 + msg.length := by
    simp [hdata, putLE_length]; omega
  have h0 : byteAt data 0 = .ok t := byteAt_field [] _ _ 0 rfl
  have h1 : byteAt data 1 = .ok p := byteAt_field [t] _ _ 1 rfl
  have hseq : readLEx data 2 8 = .ok (leNum (putLE 8 seq)) :=
    readLEx_field [t, p] _ _ 2 8 rfl (putLE_length _ _)
  have hts : readLEx data 10 8 = .ok (leNum (putLE 8 ts)) := by
    rw [show data = (t :: p :: putLE 8 seq) ++ (putLE 8 ts ++ (putLE 8 cid ++
      (putLE 4 code ++ (msg.length % 256 :: msg)))) from by simp [hdata]]
    exact readLEx_field _ _ _ 10 8 (by simp [putLE_length]) (putLE_length _ _)
  have hcid : readLEx data 18 8 = .ok (leNum (putLE 8 cid)) := by
    rw [show data = (t :: p :: (putLE 8 seq ++ putLE 8 ts)) ++ (putLE 8 cid ++
      (putLE 4 code ++ (msg.length % 256 :: msg))) from by simp [hdata]]
    exact readLEx_field _ _ _ 18 8 (by simp [putLE_length]) (putLE_length _ _)
  have hcode : readLEx data 26 4 = .ok (leNum (putLE 4 code)) := by
    rw [show data = (t :: p :: (putLE 8 seq ++ putLE 8 ts ++ putLE 8 cid)) ++
      (putLE 4 code ++ (msg.length % 256 :: msg)) from by simp [hdata]]
    exact readLEx_field _ _ _ 26 4 (by simp [putLE_length]) (putLE_length _ _)
  have hml : data.get? 30 = some (msg.length % 256) := by
    rw [show data = (t :: p :: (putLE 8 seq ++ putLE 8 ts ++ putLE 8 cid ++
      putLE 4 code)) ++ (msg.length % 256 :: msg) from by simp [hdata]]
    exact get?_field _ _ _ 30 (by simp [putLE_length])
  have hmsg : ((data.drop 31).take (msg.length % 256)) = msg := by
    rw [show data = (t :: p :: (putLE 8 seq ++ putLE 8 ts ++ putLE 8 cid ++
      putLE 4 code ++ [msg.length % 256])) ++ (msg ++ []) from by simp [hdata]]
    rw [hLmod]
    exact dropTake_field _ _ _ 31 _ (by simp [putLE_length]) rfl
  rw [deserializeError]
  rw [if_neg (by omega)]
  rw [h0, exceptBindOk, h1, exceptBindOk, hseq, exceptBindOk, hts, exceptBindOk,
    hcid, exceptBindOk, hcode, exceptBindOk, hml]
  simp only [exceptPureEq, exceptBindOk]
  rw [if_pos (by omega)]
  rw [hmsg]
  simp only [leNum_putLE]

theorem buyByte_decide (ib : Bool) : decide ((if ib then 1 else 0) ≠ 0) = ib := by
  cases ib <;> rfl

theorem pow256_8 : (256 : Nat) ^ 8 = 2 ^ 64 := by norm_num

theorem pow256_4 : (256 : Nat) ^ 4 = 2 ^ 32 := by norm_num

/-- C1 (amended): for every validly constructed message whose encoded
frame meets the decoder's 50-byte minimum -- i.e. whose symbol is at
least 2 bytes long in the Order case -- decoding the serialized bytes
returns the identical message (`receive_time` is not serialized), and
the encoded byte length is a function of the message alone.  (The
unamended claim fails for valid orders with a 1-byte symbol, whose
49-byte frame the decoder rejects as truncated.) -/
theorem codec_roundtrip_amended (m : Msg) (hv : ValidMsg m)
    (hmin : ∀ om, m = .order om → 2 ≤ om.symbol.length) :
    decode (encode m) = .ok m ∧ (encode m).length = encodedLength m := by
  cases m with
  | order om =>
    obtain ⟨⟨ty, pr, sq, tss, cd⟩, oid, sym, pb, qty, ib⟩ := om
    simp only [ValidMsg, ValidOrder, ValidHeader] at hv
    obtain ⟨htype, ⟨hp, hsq, hts, hcd⟩, hoidlt, _, hsymne, h255, _, hpblt, _,
      hqlt, _⟩ := hv
    have h2 : 2 ≤ sym.length := by simpa using hmin _ rfl
    have ht : ty % 256 = ty := Nat.mod_eq_of_lt (by rcases htype with h | h | h | h <;> omega)
    have hpm : pr % 256 = pr := Nat.mod_eq_of_lt hp
    have henc : encode (.order ⟨⟨ty, pr, sq, tss, cd⟩, oid, sym, pb, qty, ib⟩) =
        ty :: pr :: (putLE 8 sq ++ (putLE 8 tss ++ (putLE 8 cd ++ (putLE 8 oid ++
          (sym.length % 256 :: (sym ++ (putLE 8 pb ++ (putLE 4 qty ++
          [if ib then 1 else 0])))))))) := by
      simp [encode, OrderMessage.serialize, serializeHeader, ht, hpm]
    constructor
    · rw [henc, decode]
      simp only [List.get?]
      rw [if_pos htype]
      rw [deserializeOrder_append ty pr sq tss cd oid sym pb qty _ h2 h255]
      rw [exceptMapOk]
      rw [pow256_8, pow256_4, Nat.mod_eq_of_lt hsq, Nat.mod_eq_of_lt hts,
        Nat.mod_eq_of_lt hcd, Nat.mod_eq_of_lt hoidlt, Nat.mod_eq_of_lt hpblt,
        Nat.mod_eq_of_lt hqlt, buyByte_decide]
    · rw [henc]
      simp [encodedLength, putLE_length]
      omega
  | marketData mm =>
    obtain ⟨⟨ty, pr, sq, tss, cd⟩, sym, bb, ab, bs, as⟩ := mm
    simp only [ValidMsg, ValidMarketData, ValidHeader] at hv
    obtain ⟨htype, ⟨hp, hsq, hts, hcd⟩, h255, _, hbblt, hablt, _, _, _, hbslt,
      haslt⟩ := hv
    have ht : ty % 256 = ty := by rw [htype]
    have hpm : pr % 256 = pr := Nat.mod_eq_of_lt hp
    have henc : encode (.marketData ⟨⟨ty, pr, sq, tss, cd⟩, sym, bb, ab, bs, as⟩) =
        ty :: pr :: (putLE 8 sq ++ (putLE 8 tss ++ (putLE 8 cd ++
          (sym.length % 256 :: (sym ++ (putLE 8 bb ++ (putLE 8 ab ++
          (putLE 4 bs ++ putLE 4 as)))))))) := by
      simp [encode, MarketDataMessage.serialize, serializeHeader, ht, hpm]
    constructor
    · rw [henc, decode]
      simp only [List.get?]
      rw [if_neg (by omega), if_pos htype]
      rw [deserializeMarketData_append ty pr sq tss cd sym bb ab bs as h255]
      rw [exceptMapOk]
      rw [pow256_8, pow256_4, Nat.mod_eq_of_lt hsq, Nat.mod_eq_of_lt hts,
        Nat.mod_eq_of_lt hcd, Nat.mod_eq_of_lt hbblt, Nat.mod_eq_of_lt hablt,
        Nat.mod_eq_of_lt hbslt, Nat.mod_eq_of_lt haslt]
    · rw [henc]
      simp [encodedLength, putLE_length]
      omega
  | heartbeat hm =>
    obtain ⟨⟨ty, pr, sq, tss, cd⟩⟩ := hm
    simp only [ValidMsg, ValidHeartbeat, ValidHeader] at hv
    obtain ⟨htype, hp, hsq, hts, hcd⟩ := hv
    have ht : ty % 256 = ty := by rw [htype]
    have hpm : pr % 256 = pr := Nat.mod_eq_of_lt hp
    have henc : encode (.heartbeat ⟨⟨ty, pr, sq, tss, cd⟩⟩) =
        ty :: pr :: (putLE 8 sq ++ (putLE 8 tss ++ putLE 8 cd)) := by
      simp [encode, HeartbeatMessage.serialize, serializeHeader, ht, hpm]
    constructor
    · rw [henc, decode]
      simp only [List.get?]
      rw [if_neg (by omega), if_neg (by omega), if_pos htype]
      rw [deserializeHeartbeat_append ty pr sq tss cd]
      rw [exceptMapOk]
      rw [pow256_8, Nat.mod_eq_of_lt hsq, Nat.mod_eq_of_lt hts,
        Nat.mod_eq_of_lt hcd]
    · rw [henc]
      simp [encodedLength, putLE_length]
  | error em =>
    obtain ⟨⟨ty, pr, sq, tss, cd⟩, code, msg⟩ := em
    simp only [ValidMsg, ValidError, ValidHeader] at hv
    obtain ⟨htype, ⟨hp, hsq, hts, hcd⟩, hcode, h255, _⟩ := hv
    have ht : ty % 256 = ty := by rw [htype]
    have hpm : pr % 256 = pr := Nat.mod_eq_of_lt hp
    have henc : encode (.error ⟨⟨ty, pr, sq, tss, cd⟩, code, msg⟩) =
        ty :: pr :: (putLE 8 sq ++ (putLE 8 tss ++ (putLE 8 cd ++
          (putLE 4 code ++ (msg.length % 256 :: msg))))) := by
      simp [encode, ErrorMessage.serialize, serializeHeader, ht, hpm]
    constructor
    · rw [henc, decode]
      simp only [List.get?]
      rw [if_neg (by omega), if_neg (by omega), if_neg (by omega), if_pos htype]
      rw [deserializeError_append ty pr sq tss cd code msg h255]
      rw [exceptMapOk]
      rw [pow256_8, pow256_4, Nat.mod_eq_of_lt hsq, Nat.mod_eq_of_lt hts,
        Nat.mod_eq_of_lt hcd, Nat.mod_eq_of_lt hcode]
    · rw [henc]
      simp [encodedLength, putLE_length]
      omega

theorem readLE_isSome (data : List Nat) (pos w : Nat) (h : pos + w ≤ data.length) :
    ∃ v, readLE data pos w = some v := by
  induction w generalizing pos with
  | zero => exact ⟨0, rfl⟩
  | succ w ih =>
    have hp : pos < data.length := by omega
    obtain ⟨b, hb⟩ : ∃ b, data.get? pos = some b :=
      ⟨data.get ⟨pos, hp⟩, List.get?_eq_get hp⟩
    obtain ⟨v, hv⟩ := ih (pos + 1) (by omega)
    exact ⟨b + 256 * v, by rw [readLE, hb, hv]⟩

theorem readLEx_isOk (data : List Nat) (pos w : Nat) (h : pos + w ≤ data.length) :
    ∃ v, readLEx data pos w = .ok v := by
  obtain ⟨v, hv⟩ := readLE_isSome data pos w h
  exact ⟨v, by rw [readLEx, hv]⟩

theorem deserializeOrder_symbolOverrun (data : List Nat) (L : Nat)
    (hlen : 50 ≤ data.length) (hL : data.get? 34 = some L)
    (hover : data.length < 35 + L) :
    deserializeOrder data = .error .truncated := by
  obtain ⟨b0, h0⟩ : ∃ b, byteAt data 0 = .ok b := by
    rw [byteAt, List.get?_eq_get (by omega)]; exact ⟨_, rfl⟩
  obtain ⟨b1, h1⟩ : ∃ b, byteAt data 1 = .ok b := by
    rw [byteAt, List.get?_eq_get (by omega)]; exact ⟨_, rfl⟩
  obtain ⟨vseq, hseq⟩ := readLEx_isOk data 2 8 (by omega)
  obtain ⟨vts, hts⟩ := readLEx_isOk data 10 8 (by omega)
  obtain ⟨vcid, hcid⟩ := readLEx_isOk data 18 8 (by omega)
  obtain ⟨void, hoid⟩ := readLEx_isOk data 26 8 (by omega)
  have hsl : byteAt data 34 = .ok L := by rw [byteAt, hL]
  rw [deserializeOrder]
  rw [if_neg (by omega)]
  rw [h0, exceptBindOk, h1, exceptBindOk, hseq, exceptBindOk, hts, exceptBindOk,
    hcid, exceptBindOk, hoid, exceptBindOk, hsl, exceptBindOk]
  rw [if_pos (by omega)]
  rfl

theorem deserializeMarketData_symbolOverrun (data : List Nat) (L : Nat)
    (hlen : 50 ≤ data.length) (hL : data.get? 26 = some L)
    (hover : data.length < 27 + L) :
    deserializeMarketData data = .error .truncated := by
  obtain ⟨b0, h0⟩ : ∃ b, byteAt data 0 = .ok b := by
    rw [byteAt, List.get?_eq_get (by omega)]; exact ⟨_, rfl⟩
  obtain ⟨b1, h1⟩ : ∃ b, byteAt data 1 = .ok b := by
    rw [byteAt, List.get?_eq_get (by omega)]; exact ⟨_, rfl⟩
  obtain ⟨vseq, hseq⟩ := readLEx_isOk data 2 8 (by omega)
  obtain ⟨vts, hts⟩ := readLEx_isOk data 10 8 (by omega)
  obtain ⟨vcid, hcid⟩ := readLEx_isOk data 18 8 (by omega)
  have hsl : byteAt data 26 = .ok L := by rw [byteAt, hL]
  rw [deserializeMarketData]
  rw [if_neg (by omega)]
  rw [h0, exceptBindOk, h1, exceptBindOk, hseq, exceptBindOk, hts, exceptBindOk,
    hcid, exceptBindOk, hsl, exceptBindOk]
  rw [if_pos (by omega)]
  rfl

theorem deserializeError_msgOverrun (data : List Nat) (L : Nat)
    (hlen : 30 ≤ data.length) (hL : data.get? 30 = some L)
    (hover : data.length < 31 + L) :
    ∃ e, deserializeError data = .ok e ∧ e.errorMessage = [] := by
  obtain ⟨b0, h0⟩ : ∃ b, byteAt data 0 = .ok b := by
    rw [byteAt, List.get?_eq_get (by omega)]; exact ⟨_, rfl⟩
  obtain ⟨b1, h1⟩ : ∃ b, byteAt data 1 = .ok b := by
    rw [byteAt, List.get?_eq_get (by omega)]; exact ⟨_, rfl⟩
  obtain ⟨vseq, hseq⟩ := readLEx_isOk data 2 8 (by omega)
  obtain ⟨vts, hts⟩ := readLEx_isOk data 10 8 (by omega)
  obtain ⟨vcid, hcid⟩ := readLEx_isOk data 18 8 (by omega)
  obtain ⟨vcode, hcode⟩ := readLEx_isOk data 26 4 (by omega)
  refine ⟨⟨⟨b0, b1, vseq, vts, vcid⟩, vcode, []⟩, ?_, rfl⟩
  rw [deserializeError]
  rw [if_neg (by omega)]
  rw [h0, exceptBindOk, h1, exceptBindOk, hseq, exceptBindOk, hts, exceptBindOk,
    hcid, exceptBindOk, hcode, exceptBindOk, hL]
  simp only [exceptPureEq, exceptBindOk]
  rw [if_neg (by omega)]



/-- C1 (counterexample): the order message with the 1-byte symbol "A"
satisfies every invariant of the data model, yet its 49-byte encoding is
rejected by `OrderMessage::deserialize` (minimum frame size 50), so
`decode (encode m) = m` fails for this validly constructed `m`. -/
theorem codec_roundtrip_counterexample :
    ValidMsg (.order ⟨⟨1, 2, 1, 1, 0⟩, 1, [65], 4607182418800017408, 1, true⟩) ∧
      decode (encode (.order ⟨⟨1, 2, 1, 1, 0⟩, 1, [65],
        4607182418800017408, 1, true⟩)) = .error .truncated := by
  constructor
  · exact ⟨by decide, ⟨by decide, by decide, by decide, by decide⟩, by decide,
      by decide, by decide, by decide, by decide, by decide,
      by with_unfolding_all rfl, by decide, by decide⟩
  · decide

/-- C1 (witness): the amended round-trip theorem applied to the concrete
order (order_id 12345, symbol "AAPL", price bits of 1.0, quantity 100). -/
theorem codec_roundtrip_amended_witness :
    decode (encode (.order ⟨⟨1, 2, 7, 11, 13⟩, 12345, [65, 65, 80, 76],
        4607182418800017408, 100, true⟩)) =
      .ok (.order ⟨⟨1, 2, 7, 11, 13⟩, 12345, [65, 65, 80, 76],
        4607182418800017408, 100, true⟩) ∧
    (encode (.order ⟨⟨1, 2, 7, 11, 13⟩, 12345, [65, 65, 80, 76],
        4607182418800017408, 100, true⟩)).length =
      encodedLength (.order ⟨⟨1, 2, 7, 11, 13⟩, 12345, [65, 65, 80, 76],
        4607182418800017408, 100, true⟩) :=
  codec_roundtrip_amended _
    ⟨by decide, ⟨by decide, by decide, by decide, by decide⟩, by decide,
      by decide, by decide, by decide, by decide, by decide,
      by with_unfolding_all rfl, by decide, by decide⟩
    (by intro om h; injection h with h2; subst h2; decide)

/-- C2: the decoder does NOT keep every index within bounds.  The
50-byte Order frame below carries `symbol_len = 15`; the check
`pos + symbol_len > data.size()` (35 + 15 > 50) passes, but the fixed
trailing fields (price, quantity, is_buy) then extend past the end of
the frame, so `OrderMessage::deserialize` reads `data[50..57]` out of
range -- undefined behaviour in the C++.  The model pinpoints the
out-of-range access. -/
theorem decoder_oob_read :
    decode ([1, 2] ++ List.replicate 32 0 ++ ([15] ++ List.replicate 15 65)) =
      .error .oob ∧
    ([1, 2] ++ List.replicate 32 0 ++ ([15] ++ List.replicate 15 65)).length = 50 := by
  constructor
  · decide
  · decide

/-- C6 (counterexample): a 31-byte Error frame whose `msg_len` byte is
200 -- far beyond the 0 remaining bytes -- is NOT rejected:
`ErrorMessage::deserialize` skips the assignment and returns `true`,
yielding a successfully decoded message with an empty `error_message`.
The claimed truncation failure does not hold for the Error kind. -/
theorem decoder_error_truncation_counterexample :
    decode ([9, 2] ++ List.replicate 24 0 ++ [7, 0, 0, 0, 200]) =
      .ok (.error ⟨⟨9, 2, 0, 0, 0⟩, 7, []⟩) ∧
    ([9, 2] ++ List.replicate 24 0 ++ [7, 0, 0, 0, 200]).get? 30 = some 200 ∧
    ([9, 2] ++ List.replicate 24 0 ++ [7, 0, 0, 0, 200]).length = 31 := by
  refine ⟨by decide, by decide, by decide⟩

/-- C6 (amended): when an embedded string length byte exceeds the bytes
remaining in the frame, the Order and MarketData decoders fail with the
truncation error, but the Error decoder instead succeeds and leaves
`error_message` empty. -/
theorem decoder_string_overrun_amended :
    (∀ data L, 50 ≤ data.length → data.get? 34 = some L →
      data.length < 35 + L → deserializeOrder data = .error .truncated) ∧
    (∀ data L, 50 ≤ data.length → data.get? 26 = some L →
      data.length < 27 + L → deserializeMarketData data = .error .truncated) ∧
    (∀ data L, 30 ≤ data.length → data.get? 30 = some L →
      data.length < 31 + L →
      ∃ e, deserializeError data = .ok e ∧ e.errorMessage = []) :=
  ⟨deserializeOrder_symbolOverrun, deserializeMarketData_symbolOverrun,
    deserializeError_msgOverrun⟩

/-- C6 (witness): the amended theorem applied to three concrete frames
with overrunning length bytes (240, 250 and 200 respectively). -/
theorem decoder_string_overrun_amended_witness :
    deserializeOrder ([1, 2] ++ List.replicate 32 0 ++
        ([240] ++ List.replicate 15 65)) = .error .truncated ∧
    deserializeMarketData ([5, 2] ++ List.replicate 24 0 ++
        ([250] ++ List.replicate 23 65)) = .error .truncated ∧
    (∃ e, deserializeError ([9, 2] ++ List.replicate 24 0 ++
        [7, 0, 0, 0, 201]) = .ok e ∧ e.errorMessage = []) :=
  ⟨decoder_string_overrun_amended.1 _ 240 (by decide) (by decide) (by decide),
    decoder_string_overrun_amended.2.1 _ 250 (by decide) (by decide) (by decide),
    decoder_string_overrun_amended.2.2 _ 201 (by decide) (by decide) (by decide)⟩


theorem kindCheck_some_iff (m : Msg) :
    (∃ e, kindCheck m = some e) ↔
      (((m.hdr.type = 1 ∨ m.hdr.type = 2 ∨ m.hdr.type = 3) ∧
        ∃ om, m = .order om ∧ (om.orderId = 0 ∨ om.symbol = [] ∨
          dLe om.priceBits 0 = true ∨ om.quantity = 0)) ∨
      (m.hdr.type = 5 ∧
        ∃ md, m = .marketData md ∧ (md.symbol = [] ∨
          dLt md.bidBits 0 = true ∨ dLt md.askBits 0 = true ∨
          dGe md.bidBits md.askBits = true))) := by
  cases m with
  | order om =>
    simp only [kindCheck, Msg.hdr]
    split_ifs with h1 h2 <;> simp_all
  | marketData md =>
    simp only [kindCheck, Msg.hdr]
    split_ifs with h1 h2 <;> simp_all <;> first | tauto | (intro _; omega)
  | heartbeat hm =>
    simp only [kindCheck, Msg.hdr]
    split_ifs with h1 h2 <;> simp_all
  | error em =>
    simp only [kindCheck, Msg.hdr]
    split_ifs with h1 h2 <;> simp_all

/-- C5 (amended): the validation interceptor returns stop iff the
message is absent, or its sequence number is 0, or its timestamp is 0,
or an Order{New,Cancel,Replace}-typed order object violates
order_id != 0 / non-empty symbol / price > 0 / quantity > 0 (IEEE
comparison `price_ <= 0.0`), or a MarketData-typed market-data object
violates non-empty symbol / bid >= 0 / ask >= 0 / bid < ask (IEEE
comparisons); on stop it sets metadata["error"], on continue it sets
metadata["validation"] = "passed".  (The original claim omits the
validator's non-empty-symbol check on MarketData messages.) -/
theorem validator_reject_iff (ctx : InterceptorContext) :
    ((validationIntercept ctx).1 = false ↔
      (ctx.message = none ∨ ∃ m, ctx.message = some m ∧
        (m.hdr.sequenceNumber = 0 ∨ m.hdr.timestamp = 0 ∨
          (((m.hdr.type = 1 ∨ m.hdr.type = 2 ∨ m.hdr.type = 3) ∧
            ∃ om, m = .order om ∧ (om.orderId = 0 ∨ om.symbol = [] ∨
              dLe om.priceBits 0 = true ∨ om.quantity = 0)) ∨
          (m.hdr.type = 5 ∧ ∃ md, m = .marketData md ∧ (md.symbol = [] ∨
            dLt md.bidBits 0 = true ∨ dLt md.askBits 0 = true ∨
            dGe md.bidBits md.askBits = true)))))) ∧
    ((validationIntercept ctx).1 = false →
      getMeta (validationIntercept ctx).2.metadata "error" ≠ "") ∧
    ((validationIntercept ctx).1 = true →
      getMeta (validationIntercept ctx).2.metadata "validation" = "passed") := by
  obtain ⟨msg, md⟩ := ctx
  cases msg with
  | none =>
    refine ⟨?_, ?_, ?_⟩ <;>
      simp [validationIntercept, withError, getMeta, setMeta]
  | some m =>
    by_cases hseq : m.hdr.sequenceNumber = 0
    · refine ⟨?_, ?_, ?_⟩ <;>
        simp [validationIntercept, hseq, withError, getMeta, setMeta]
    · by_cases hts : m.hdr.timestamp = 0
      · refine ⟨?_, ?_, ?_⟩ <;>
          simp [validationIntercept, hseq, hts, withError, getMeta, setMeta]
      · rcases hkc : kindCheck m with _ | e
        · refine ⟨?_, ?_, ?_⟩ <;>
            simp [validationIntercept, hseq, hts, hkc, withError, getMeta,
              setMeta, ← kindCheck_some_iff]
        · have he : e ≠ "" := by
            rcases m with om | mm | hm | em <;>
              simp only [kindCheck, Msg.hdr] at hkc <;>
              split_ifs at hkc <;> simp_all <;> subst hkc <;> decide
          refine ⟨?_, ?_, ?_⟩ <;>
            simp [validationIntercept, hseq, hts, hkc, withError, getMeta,
              setMeta, ← kindCheck_some_iff]
          exact he

/-- C5 (witness): the reject-iff theorem applied to a concrete valid
heartbeat: the validator passes it and sets metadata["validation"]. -/
theorem validator_reject_iff_witness :
    getMeta (validationIntercept ⟨some (.heartbeat ⟨⟨6, 2, 1, 1, 0⟩⟩),
      []⟩).2.metadata "validation" = "passed" :=
  (validator_reject_iff ⟨some (.heartbeat ⟨⟨6, 2, 1, 1, 0⟩⟩), []⟩).2.2
    (by decide)

/-- C5 (counterexample): a MarketData message with an empty symbol,
bid = 1.0 < ask = 2.0 (both non-negative), sequence number 1 and
timestamp 1 satisfies every condition the claim lists for acceptance,
yet the validator returns stop with metadata["error"] = "Empty symbol". -/
theorem validator_reject_iff_counterexample :
    (validationIntercept ⟨some (.marketData ⟨⟨5, 2, 1, 1, 0⟩, [],
        4607182418800017408, 4611686018427387904, 1, 1⟩), []⟩).1 = false ∧
    getMeta (validationIntercept ⟨some (.marketData ⟨⟨5, 2, 1, 1, 0⟩, [],
        4607182418800017408, 4611686018427387904, 1, 1⟩), []⟩).2.metadata
      "error" = "Empty symbol" ∧
    dLt 4607182418800017408 4611686018427387904 = true ∧
    dLt 4607182418800017408 0 = false ∧
    dLt 4611686018427387904 0 = false := by
  refine ⟨?_, ?_, ?_, ?_, ?_⟩ <;> with_unfolding_all rfl

/-- C10: messages of type ORDER_FILL (4) get no kind-specific
validation: every order object with type 4, non-zero sequence number
and non-zero timestamp passes the validator with
metadata["validation"] = "passed" regardless of order_id, symbol,
price or quantity; and the decoder does construct order messages for
frames whose leading type byte is 4. -/
theorem orderfill_skips_validation :
    (∀ (om : OrderMessage) (md : Metadata), om.hdr.type = 4 →
      om.hdr.sequenceNumber ≠ 0 → om.hdr.timestamp ≠ 0 →
      (validationIntercept ⟨some (.order om), md⟩).1 = true ∧
      getMeta (validationIntercept ⟨some (.order om), md⟩).2.metadata
        "validation" = "passed") ∧
    (∀ data m, decode data = .ok m → data.get? 0 = some 4 →
      ∃ om, m = .order om) := by
  constructor
  · intro om md h4 hseq hts
    have hkc : kindCheck (.order om) = none := by
      simp only [kindCheck, Msg.hdr]
      rw [if_neg (by omega), if_neg (by omega)]
    constructor <;>
      simp [validationIntercept, Msg.hdr, hseq, hts, hkc, getMeta, setMeta,
        List.find?]
  · intro data m hdec h0
    simp only [decode, h0] at hdec
    rw [if_pos (by norm_num)] at hdec
    cases hd : deserializeOrder data with
    | ok om =>
      rw [hd, exceptMapOk] at hdec
      exact ⟨om, by injection hdec with h; exact h.symm⟩
    | error err =>
      rw [hd, exceptMapErr] at hdec
      cases hdec

/-- C10 (witness): a type-4 order with order_id 0, empty symbol, price
bits 0 and quantity 0 passes validation, and a concrete 50-byte frame
with leading byte 4 decodes to an order message. -/
theorem orderfill_skips_validation_witness :
    ((validationIntercept ⟨some (.order ⟨⟨4, 2, 1, 1, 0⟩, 0, [], 0, 0,
        true⟩), []⟩).1 = true ∧
      getMeta (validationIntercept ⟨some (.order ⟨⟨4, 2, 1, 1, 0⟩, 0, [],
        0, 0, true⟩), []⟩).2.metadata "validation" = "passed") ∧
    (∃ om, (Msg.order ⟨⟨4, 2, 0, 0, 0⟩, 0, [65, 66], 0, 0, false⟩ : Msg) =
      .order om) :=
  ⟨orderfill_skips_validation.1 _ [] (by decide) (by decide) (by decide),
    orderfill_skips_validation.2
      ([4, 2] ++ List.replicate 32 0 ++ [2, 65, 66] ++ List.replicate 13 0)
      _ (by decide) (by decide)⟩


theorem processChain_all_continue (chain : List Interceptor)
    (hall : ∀ i ∈ chain, ∀ c, (i c).1 = true) (ctx : InterceptorContext) :
    (processChain chain ctx).1 = true := by
  induction chain generalizing ctx with
  | nil => rfl
  | cons i rest ih =>
    rw [processChain]
    rw [if_pos (hall i (by simp) ctx)]
    exact ih (fun j hj c => hall j (by simp [hj]) c) _

theorem processChain_stopper_ignores_tail (pre : List Interceptor)
    (st : Interceptor) (hst : ∀ c, (st c).1 = false)
    (post post' : List Interceptor) (ctx : InterceptorContext) :
    processChain (pre ++ st :: post) ctx = processChain (pre ++ st :: post') ctx := by
  induction pre generalizing ctx with
  | nil =>
    simp only [List.nil_append, processChain]
    rw [if_neg (by rw [hst]; exact Bool.false_ne_true)]
    rw [if_neg (by rw [hst]; exact Bool.false_ne_true)]
  | cons i pre ih =>
    simp only [List.cons_append, processChain]
    by_cases h : (i ctx).1
    · rw [if_pos h, if_pos h]; exact ih _
    · rw [if_neg h, if_neg h]

theorem processChain_stopper_stops (pre : List Interceptor)
    (st : Interceptor) (hst : ∀ c, (st c).1 = false)
    (hpre : ∀ i ∈ pre, ∀ c, (i c).1 = true)
    (post : List Interceptor) (ctx : InterceptorContext) :
    (processChain (pre ++ st :: post) ctx).1 = false := by
  induction pre generalizing ctx with
  | nil =>
    simp only [List.nil_append, processChain]
    rw [if_neg (by rw [hst]; exact Bool.false_ne_true)]
  | cons i pre ih =>
    simp only [List.cons_append, processChain]
    rw [if_pos (hpre i (by simp) ctx)]
    exact ih (fun j hj c => hpre j (by simp [hj]) c) _

/-- C8: `InterceptorChain::process` runs the interceptors in insertion
order (empty chain and cons-step equations); if every interceptor
returns continue, process returns true; if some interceptor returns
stop, process returns false and no later interceptor is invoked (the
result does not depend on what follows the stopper). -/
theorem chain_short_circuit :
    (∀ ctx, processChain [] ctx = (true, ctx)) ∧
    (∀ (i : Interceptor) rest ctx, processChain (i :: rest) ctx =
      if (i ctx).1 then processChain rest (i ctx).2 else (false, (i ctx).2)) ∧
    (∀ chain ctx, (∀ i ∈ chain, ∀ c, (i c).1 = true) →
      (processChain chain ctx).1 = true) ∧
    (∀ pre (st : Interceptor) post post' ctx, (∀ c, (st c).1 = false) →
      processChain (pre ++ st :: post) ctx = processChain (pre ++ st :: post') ctx) ∧
    (∀ pre (st : Interceptor) post ctx, (∀ c, (st c).1 = false) →
      (∀ i ∈ pre, ∀ c, (i c).1 = true) →
      (processChain (pre ++ st :: post) ctx).1 = false) :=
  ⟨fun _ => rfl, fun _ _ _ => rfl,
    fun chain ctx h => processChain_all_continue chain h ctx,
    fun pre st post post' ctx h =>
      processChain_stopper_ignores_tail pre st h post post' ctx,
    fun pre st post ctx h hp => processChain_stopper_stops pre st h hp post ctx⟩

/-- C8 (witness): for the chain [A, Stop, C] the result ignores C
entirely and process returns false. -/
theorem chain_short_circuit_witness :
    processChain [fun c => (true, c), fun c => (false, c),
        fun c => (true, ⟨c.message, setMeta c.metadata "C" "ran"⟩)]
        ⟨none, []⟩ =
      processChain [fun c => (true, c), fun c => (false, c)] ⟨none, []⟩ ∧
    (processChain [fun c => (true, c), fun c => (false, c),
        fun c => (true, ⟨c.message, setMeta c.metadata "C" "ran"⟩)]
        ⟨none, []⟩).1 = false :=
  ⟨chain_short_circuit.2.2.2.1 [fun c => (true, c)] (fun c => (false, c))
      [fun c => (true, ⟨c.message, setMeta c.metadata "C" "ran"⟩)] []
      ⟨none, []⟩ (fun _ => rfl),
    chain_short_circuit.2.2.2.2 [fun c => (true, c)] (fun c => (false, c))
      [fun c => (true, ⟨c.message, setMeta c.metadata "C" "ran"⟩)]
      ⟨none, []⟩ (fun _ => rfl)
      (by intro i hi c; rw [List.mem_singleton] at hi; subst hi; rfl)⟩

theorem throttleRun_window (N : Nat) (ts : List Nat) (st : ThrottleState)
    (hcnt : st.messageCount ≤ N)
    (hw : ∀ t ∈ ts, t - st.lastCheck < 1000) :
    (throttleRun N st ts).2 =
      List.replicate (min ts.length (N - st.messageCount)) true ++
        List.replicate (ts.length - (N - st.messageCount)) false ∧
    (throttleRun N st ts).1 = ⟨st.lastCheck, min (st.messageCount + ts.length) N⟩ := by
  induction ts generalizing st with
  | nil =>
    obtain ⟨lc, c⟩ := st
    have hc : c ≤ N := hcnt
    refine ⟨by simp [throttleRun], ?_⟩
    simp only [throttleRun]
    congr 1
    simp
    omega
  | cons t ts ih =>
    obtain ⟨lc, c⟩ := st
    have hc : c ≤ N := hcnt
    have hel : t - lc < 1000 := hw t (by simp)
    rcases Nat.lt_or_ge c N with hlt | hge
    · have step : throttlingIntercept N t ⟨lc, c⟩ ⟨none, []⟩ =
          (⟨lc, c + 1⟩, true, ⟨none, setMeta [] "throttle_status" "accepted"⟩) := by
        simp only [throttlingIntercept]
        rw [if_neg (show ¬ t - lc ≥ 1000 by omega)]
        dsimp only
        rw [if_neg (show ¬ c ≥ N by omega)]
      rw [throttleRun, step]
      obtain ⟨ih1, ih2⟩ := ih ⟨lc, c + 1⟩ (by simp; omega)
        (fun u hu => hw u (by simp [hu]))
      constructor
      · show true :: (throttleRun N ⟨lc, c + 1⟩ ts).2 = _
        rw [ih1]
        have e1 : min (t :: ts).length (N - c) =
            min ts.length (N - (⟨lc, c + 1⟩ : ThrottleState).messageCount) + 1 := by
          simp
          omega
        have e2 : (t :: ts).length - (N - c) =
            ts.length - (N - (⟨lc, c + 1⟩ : ThrottleState).messageCount) := by
          simp
          omega
        rw [e1, e2, List.replicate_succ, List.cons_append]
      · show (throttleRun N ⟨lc, c + 1⟩ ts).1 = _
        rw [ih2]
        congr 1
        simp
        omega
    · have step : throttlingIntercept N t ⟨lc, c⟩ ⟨none, []⟩ =
          (⟨lc, c⟩, false, ⟨none, setMeta [] "throttled" "Rate limit exceeded"⟩) := by
        simp only [throttlingIntercept]
        rw [if_neg (show ¬ t - lc ≥ 1000 by omega)]
        dsimp only
        rw [if_pos (show c ≥ N from hge)]
      rw [throttleRun, step]
      obtain ⟨ih1, ih2⟩ := ih ⟨lc, c⟩ (by simp; omega)
        (fun u hu => hw u (by simp [hu]))
      constructor
      · show false :: (throttleRun N ⟨lc, c⟩ ts).2 = _
        rw [ih1]
        have e1 : min (t :: ts).length (N - c) = 0 := by simp; omega
        have e2 : min ts.length (N - (⟨lc, c⟩ : ThrottleState).messageCount) = 0 := by
          simp
          omega
        have e3 : (t :: ts).length - (N - c) =
            ts.length - (N - (⟨lc, c⟩ : ThrottleState).messageCount) + 1 := by
          simp
          omega
        rw [e1, e2, e3, List.replicate_succ]
        simp
      · show (throttleRun N ⟨lc, c⟩ ts).1 = _
        rw [ih2]
        congr 1
        simp
        omega

/-- C7: the fixed-window throttler.  When at least 1000 ms have elapsed
since `last_check_`, the state is reset to (now, 0) before the check;
within a window (< 1000 ms elapsed, no reset) an attempt with
`count >= max_per_second` returns stop, sets metadata["throttled"] and
leaves the state unchanged, otherwise it increments the count, sets
metadata["throttle_status"] = "accepted" and returns continue; over any
sequence of arrivals inside one window starting from count 0, exactly
`min n N` attempts are accepted (all before the first rejection) and
every attempt after the N-th is rejected. -/
theorem throttle_fixed_window :
    (∀ N now st (ctx : InterceptorContext), 1000 ≤ now - st.lastCheck →
      throttlingIntercept N now st ctx = throttlingIntercept N now ⟨now, 0⟩ ctx) ∧
    (∀ N now st (ctx : InterceptorContext), now - st.lastCheck < 1000 →
      N ≤ st.messageCount →
      throttlingIntercept N now st ctx = (st, false,
        { ctx with metadata := setMeta ctx.metadata "throttled" "Rate limit exceeded" })) ∧
    (∀ N now st (ctx : InterceptorContext), now - st.lastCheck < 1000 →
      st.messageCount < N →
      throttlingIntercept N now st ctx = (⟨st.lastCheck, st.messageCount + 1⟩, true,
        { ctx with metadata := setMeta ctx.metadata "throttle_status" "accepted" })) ∧
    (∀ N (ts : List Nat) st, st.messageCount = 0 →
      (∀ t ∈ ts, t - st.lastCheck < 1000) →
      (throttleRun N st ts).2 =
        List.replicate (min ts.length N) true ++
          List.replicate (ts.length - N) false ∧
      (throttleRun N st ts).1 = ⟨st.lastCheck, min ts.length N⟩) := by
  refine ⟨?_, ?_, ?_, ?_⟩
  · intro N now st ctx h
    simp only [throttlingIntercept, Nat.sub_self]
    rw [if_pos h, if_neg (by omega : ¬ (1000 : Nat) ≤ 0)]
  · intro N now st ctx h1 h2
    obtain ⟨lc, c⟩ := st
    have h1' : now - lc < 1000 := h1
    have h2' : N ≤ c := h2
    simp only [throttlingIntercept]
    rw [if_neg (show ¬ now - lc ≥ 1000 by omega)]
    dsimp only
    rw [if_pos (show c ≥ N from h2')]
  · intro N now st ctx h1 h2
    obtain ⟨lc, c⟩ := st
    have h1' : now - lc < 1000 := h1
    have h2' : c < N := h2
    simp only [throttlingIntercept]
    rw [if_neg (show ¬ now - lc ≥ 1000 by omega)]
    dsimp only
    rw [if_neg (show ¬ c ≥ N by omega)]
  · intro N ts st h0 hw
    obtain ⟨h1, h2⟩ := throttleRun_window N ts st (by omega) hw
    rw [h0] at h1 h2
    refine ⟨by rw [h1]; simp, by rw [h2]; congr 1; omega⟩

/-- C7 (witness): the throttler theorem at concrete inputs: a reset
after 2000 ms, a rejection at count 2 of 2, an acceptance at count 0,
and the run with max_per_second = 2 over three same-window arrivals
accepting exactly the first two. -/
theorem throttle_fixed_window_witness :
    throttlingIntercept 1 2000 ⟨0, 5⟩ ⟨none, []⟩ =
      throttlingIntercept 1 2000 ⟨2000, 0⟩ ⟨none, []⟩ ∧
    throttlingIntercept 2 500 ⟨0, 2⟩ ⟨none, []⟩ = (⟨0, 2⟩, false,
      ⟨none, setMeta [] "throttled" "Rate limit exceeded"⟩) ∧
    throttlingIntercept 2 500 ⟨0, 0⟩ ⟨none, []⟩ = (⟨0, 1⟩, true,
      ⟨none, setMeta [] "throttle_status" "accepted"⟩) ∧
    (throttleRun 2 ⟨0, 0⟩ [1, 2, 3]).2 = [true, true, false] :=
  ⟨throttle_fixed_window.1 1 2000 ⟨0, 5⟩ ⟨none, []⟩ (by decide),
    throttle_fixed_window.2.1 2 500 ⟨0, 2⟩ ⟨none, []⟩ (by decide) (by decide),
    throttle_fixed_window.2.2.1 2 500 ⟨0, 0⟩ ⟨none, []⟩ (by decide) (by decide),
    by
      have h := (throttle_fixed_window.2.2.2 2 [1, 2, 3] ⟨0, 0⟩ rfl
        (by decide)).1
      rw [h]
      decide⟩

/-- C4: `sequence_number_ = global_sequence_counter_.fetch_add(1)`
assigns the previous counter value and bumps the counter by one, so the
assigned numbers are exactly 0, 1, 2, ... -- strictly increasing and
unique, but the FIRST message constructed in a process receives
sequence number 0, which the code's own validator rejects as "Invalid
sequence number".  This contradicts the claim (and §3 of the spec) that
a constructed message's sequence number is never zero. -/
theorem sequence_counter_first_is_zero :
    (∀ ty pr g t, (constructMessage ty pr g t).1.sequenceNumber = g ∧
      (constructMessage ty pr g t).2 = g + 1) ∧
    (constructMessage 6 2 0 5).1.sequenceNumber = 0 ∧
    (validationIntercept ⟨some (.heartbeat ⟨(constructMessage 6 2 0 5).1⟩),
      []⟩).1 = false ∧
    getMeta (validationIntercept ⟨some (.heartbeat
      ⟨(constructMessage 6 2 0 5).1⟩), []⟩).2.metadata "error" =
      "Invalid sequence number" :=
  ⟨fun _ _ _ _ => ⟨rfl, rfl⟩, rfl, by decide, by decide⟩

/-- C9 (amended): the source dispatcher FIFO is unbounded.
`ServiceManager::sendMessage` returns void: with a present message it
always appends to `message_queue_` (growing it by one) regardless of
the queue size, and with a null message it leaves the queue unchanged;
there is no QueueFull result anywhere. -/
theorem dispatcher_queue_unbounded :
    (∀ q n m, sendMessage q n (some m) = q ++ [(n, m)]) ∧
    (∀ q n, sendMessage q n none = q) ∧
    (∀ q n m, (sendMessage q n (some m)).length = q.length + 1) :=
  ⟨fun _ _ _ => rfl, fun _ _ => rfl, fun q n m => by simp [sendMessage]⟩

/-- C9 (counterexample): even at 1,000,000 queued entries (the cap the
spec recommends an implementation enforce), `sendMessage` still appends
-- the queue state changes and nothing like QueueFull is signalled,
contradicting the claimed backpressure behaviour. -/
theorem dispatcher_queue_unbounded_counterexample :
    sendMessage (List.replicate 1000000 ("orders",
        Msg.heartbeat ⟨⟨6, 2, 1, 1, 0⟩⟩)) "orders"
        (some (.heartbeat ⟨⟨6, 2, 1, 1, 0⟩⟩)) =
      List.replicate 1000000 ("orders", Msg.heartbeat ⟨⟨6, 2, 1, 1, 0⟩⟩) ++
        [("orders", .heartbeat ⟨⟨6, 2, 1, 1, 0⟩⟩)] ∧
    (sendMessage (List.replicate 1000000 ("orders",
        Msg.heartbeat ⟨⟨6, 2, 1, 1, 0⟩⟩)) "orders"
        (some (.heartbeat ⟨⟨6, 2, 1, 1, 0⟩⟩))).length = 1000001 := by
  refine ⟨rfl, ?_⟩
  show (List.replicate 1000000 ("orders", Msg.heartbeat ⟨⟨6, 2, 1, 1, 0⟩⟩) ++
    [("orders", Msg.heartbeat ⟨⟨6, 2, 1, 1, 0⟩⟩)]).length = 1000001
  rw [List.length_append, List.length_replicate, List.length_singleton]


/-- C3 (amended): for the samples {1 µs, ..., 100 µs} recorded into an
empty monitor, average_latency() = 50.5, but p95() = 96 and
p99() = 100: the index `static_cast<size_t>(size * 0.95)` is 95 (the
IEEE product 100 * 0.95 is exactly 95.0), and the value at 0-based
index 95 of the sorted samples [1..100] is 96; likewise index 99 holds
100.  Every double operation of the monitor is modelled with exact
IEEE round-to-nearest-even semantics. -/
theorem performance_percentiles_amended :
    getAverageLatency samples100 = 101 / 2 ∧
    getP95Latency samples100 = 96 ∧ getP99Latency samples100 = 100 := by
  refine ⟨?_, by with_unfolding_all rfl, by with_unfolding_all rfl⟩
  have hs : samples100 = ([1, 2, 3, 4, 5, 6, 7, 8, 9, 10, 11, 12, 13, 14, 15, 16, 17, 18, 19, 20, 21, 22, 23, 24, 25, 26, 27, 28, 29, 30, 31, 32, 33, 34, 35, 36, 37, 38, 39, 40, 41, 42, 43, 44, 45, 46, 47, 48, 49, 50, 51, 52, 53, 54, 55, 56, 57, 58, 59, 60, 61, 62, 63, 64, 65, 66, 67, 68, 69, 70, 71, 72, 73, 74, 75, 76, 77, 78, 79, 80, 81, 82, 83, 84, 85, 86, 87, 88, 89, 90, 91, 92, 93, 94, 95, 96, 97, 98, 99, 100] : List ℚ) := by
    with_unfolding_all rfl
  have e1 : dAdd 0 1 = 1 := by with_unfolding_all rfl
  have e2 : dAdd 1 2 = 3 := by with_unfolding_all rfl
  have e3 : dAdd 3 3 = 6 := by with_unfolding_all rfl
  have e4 : dAdd 6 4 = 10 := by with_unfolding_all rfl
  have e5 : dAdd 10 5 = 15 := by with_unfolding_all rfl
  have e6 : dAdd 15 6 = 21 := by with_unfolding_all rfl
  have e7 : dAdd 21 7 = 28 := by with_unfolding_all rfl
  have e8 : dAdd 28 8 = 36 := by with_unfolding_all rfl
  have e9 : dAdd 36 9 = 45 := by with_unfolding_all rfl
  have e10 : dAdd 45 10 = 55 := by with_unfolding_all rfl
  have e11 : dAdd 55 11 = 66 := by with_unfolding_all rfl
  have e12 : dAdd 66 12 = 78 := by with_unfolding_all rfl
  have e13 : dAdd 78 13 = 91 := by with_unfolding_all rfl
  have e14 : dAdd 91 14 = 105 := by with_unfolding_all rfl
  have e15 : dAdd 105 15 = 120 := by with_unfolding_all rfl
  have e16 : dAdd 120 16 = 136 := by with_unfolding_all rfl
  have e17 : dAdd 136 17 = 153 := by with_unfolding_all rfl
  have e18 : dAdd 153 18 = 171 := by with_unfolding_all rfl
  have e19 : dAdd 171 19 = 190 := by with_unfolding_all rfl
  have e20 : dAdd 190 20 = 210 := by with_unfolding_all rfl
  have e21 : dAdd 210 21 = 231 := by with_unfolding_all rfl
  have e22 : dAdd 231 22 = 253 := by with_unfolding_all rfl
  have e23 : dAdd 253 23 = 276 := by with_unfolding_all rfl
  have e24 : dAdd 276 24 = 300 := by with_unfolding_all rfl
  have e25 : dAdd 300 25 = 325 := by with_unfolding_all rfl
  have e26 : dAdd 325 26 = 351 := by with_unfolding_all rfl
  have e27 : dAdd 351 27 = 378 := by with_unfolding_all rfl
  have e28 : dAdd 378 28 = 406 := by with_unfolding_all rfl
  have e29 : dAdd 406 29 = 435 := by with_unfolding_all rfl
  have e30 : dAdd 435 30 = 465 := by with_unfolding_all rfl
  have e31 : dAdd 465 31 = 496 := by with_unfolding_all rfl
  have e32 : dAdd 496 32 = 528 := by with_unfolding_all rfl
  have e33 : dAdd 528 33 = 561 := by with_unfolding_all rfl
  have e34 : dAdd 561 34 = 595 := by with_unfolding_all rfl
  have e35 : dAdd 595 35 = 630 := by with_unfolding_all rfl
  have e36 : dAdd 630 36 = 666 := by with_unfolding_all rfl
  have e37 : dAdd 666 37 = 703 := by with_unfolding_all rfl
  have e38 : dAdd 703 38 = 741 := by with_unfolding_all rfl
  have e39 : dAdd 741 39 = 780 := by with_unfolding_all rfl
  have e40 : dAdd 780 40 = 820 := by with_unfolding_all rfl
  have e41 : dAdd 820 41 = 861 := by with_unfolding_all rfl
  have e42 : dAdd 861 42 = 903 := by with_unfolding_all rfl
  have e43 : dAdd 903 43 = 946 := by with_unfolding_all rfl
  have e44 : dAdd 946 44 = 990 := by with_unfolding_all rfl
  have e45 : dAdd 990 45 = 1035 := by with_unfolding_all rfl
  have e46 : dAdd 1035 46 = 1081 := by with_unfolding_all rfl
  have e47 : dAdd 1081 47 = 1128 := by with_unfolding_all rfl
  have e48 : dAdd 1128 48 = 1176 := by with_unfolding_all rfl
  have e49 : dAdd 1176 49 = 1225 := by with_unfolding_all rfl
  have e50 : dAdd 1225 50 = 1275 := by with_unfolding_all rfl
  have e51 : dAdd 1275 51 = 1326 := by with_unfolding_all rfl
  have e52 : dAdd 1326 52 = 1378 := by with_unfolding_all rfl
  have e53 : dAdd 1378 53 = 1431 := by with_unfolding_all rfl
  have e54 : dAdd 1431 54 = 1485 := by with_unfolding_all rfl
  have e55 : dAdd 1485 55 = 1540 := by with_unfolding_all rfl
  have e56 : dAdd 1540 56 = 1596 := by with_unfolding_all rfl
  have e57 : dAdd 1596 57 = 1653 := by with_unfolding_all rfl
  have e58 : dAdd 1653 58 = 1711 := by with_unfolding_all rfl
  have e59 : dAdd 1711 59 = 1770 := by with_unfolding_all rfl
  have e60 : dAdd 1770 60 = 1830 := by with_unfolding_all rfl
  have e61 : dAdd 1830 61 = 1891 := by with_unfolding_all rfl
  have e62 : dAdd 1891 62 = 1953 := by with_unfolding_all rfl
  have e63 : dAdd 1953 63 = 2016 := by with_unfolding_all rfl
  have e64 : dAdd 2016 64 = 2080 := by with_unfolding_all rfl
  have e65 : dAdd 2080 65 = 2145 := by with_unfolding_all rfl
  have e66 : dAdd 2145 66 = 2211 := by with_unfolding_all rfl
  have e67 : dAdd 2211 67 = 2278 := by with_unfolding_all rfl
  have e68 : dAdd 2278 68 = 2346 := by with_unfolding_all rfl
  have e69 : dAdd 2346 69 = 2415 := by with_unfolding_all rfl
  have e70 : dAdd 2415 70 = 2485 := by with_unfolding_all rfl
  have e71 : dAdd 2485 71 = 2556 := by with_unfolding_all rfl
  have e72 : dAdd 2556 72 = 2628 := by with_unfolding_all rfl
  have e73 : dAdd 2628 73 = 2701 := by with_unfolding_all rfl
  have e74 : dAdd 2701 74 = 2775 := by with_unfolding_all rfl
  have e75 : dAdd 2775 75 = 2850 := by with_unfolding_all rfl
  have e76 : dAdd 2850 76 = 2926 := by with_unfolding_all rfl
  have e77 : dAdd 2926 77 = 3003 := by with_unfolding_all rfl
  have e78 : dAdd 3003 78 = 3081 := by with_unfolding_all rfl
  have e79 : dAdd 3081 79 = 3160 := by with_unfolding_all rfl
  have e80 : dAdd 3160 80 = 3240 := by with_unfolding_all rfl
  have e81 : dAdd 3240 81 = 3321 := by with_unfolding_all rfl
  have e82 : dAdd 3321 82 = 3403 := by with_unfolding_all rfl
  have e83 : dAdd 3403 83 = 3486 := by with_unfolding_all rfl
  have e84 : dAdd 3486 84 = 3570 := by with_unfolding_all rfl
  have e85 : dAdd 3570 85 = 3655 := by with_unfolding_all rfl
  have e86 : dAdd 3655 86 = 3741 := by with_unfolding_all rfl
  have e87 : dAdd 3741 87 = 3828 := by with_unfolding_all rfl
  have e88 : dAdd 3828 88 = 3916 := by with_unfolding_all rfl
  have e89 : dAdd 3916 89 = 4005 := by with_unfolding_all rfl
  have e90 : dAdd 4005 90 = 4095 := by with_unfolding_all rfl
  have e91 : dAdd 4095 91 = 4186 := by with_unfolding_all rfl
  have e92 : dAdd 4186 92 = 4278 := by with_unfolding_all rfl
  have e93 : dAdd 4278 93 = 4371 := by with_unfolding_all rfl
  have e94 : dAdd 4371 94 = 4465 := by with_unfolding_all rfl
  have e95 : dAdd 4465 95 = 4560 := by with_unfolding_all rfl
  have e96 : dAdd 4560 96 = 4656 := by with_unfolding_all rfl
  have e97 : dAdd 4656 97 = 4753 := by with_unfolding_all rfl
  have e98 : dAdd 4753 98 = 4851 := by with_unfolding_all rfl
  have e99 : dAdd 4851 99 = 4950 := by with_unfolding_all rfl
  have e100 : dAdd 4950 100 = 5050 := by with_unfolding_all rfl
  have hfold : List.foldl dAdd 0 ([1, 2, 3, 4, 5, 6, 7, 8, 9, 10, 11, 12, 13, 14, 15, 16, 17, 18, 19, 20, 21, 22, 23, 24, 25, 26, 27, 28, 29, 30, 31, 32, 33, 34, 35, 36, 37, 38, 39, 40, 41, 42, 43, 44, 45, 46, 47, 48, 49, 50, 51, 52, 53, 54, 55, 56, 57, 58, 59, 60, 61, 62, 63, 64, 65, 66, 67, 68, 69, 70, 71, 72, 73, 74, 75, 76, 77, 78, 79, 80, 81, 82, 83, 84, 85, 86, 87, 88, 89, 90, 91, 92, 93, 94, 95, 96, 97, 98, 99, 100] : List ℚ) = 5050 := by
    simp only [List.foldl_cons, List.foldl_nil, e1, e2, e3, e4, e5, e6, e7, e8, e9, e10, e11, e12, e13, e14, e15, e16, e17, e18, e19, e20, e21, e22, e23, e24, e25, e26, e27, e28, e29, e30, e31, e32, e33, e34, e35, e36, e37, e38, e39, e40, e41, e42, e43, e44, e45, e46, e47, e48, e49, e50, e51, e52, e53, e54, e55, e56, e57, e58, e59, e60, e61, e62, e63, e64, e65, e66, e67, e68, e69, e70, e71, e72, e73, e74, e75, e76, e77, e78, e79, e80, e81, e82, e83, e84, e85, e86, e87, e88, e89, e90, e91, e92, e93, e94, e95, e96, e97, e98, e99, e100]
  rw [hs, getAverageLatency, if_neg (by simp), hfold]
  with_unfolding_all rfl

/-- C3 (counterexample): the claimed values p95 = 95 and p99 = 99 are
both wrong for samples {1, ..., 100}: the code returns 96 and 100. -/
theorem performance_percentiles_counterexample :
    getP95Latency samples100 ≠ 95 ∧ getP99Latency samples100 ≠ 99 := by
  have h95 : getP95Latency samples100 = 96 := by with_unfolding_all rfl
  have h99 : getP99Latency samples100 = 100 := by with_unfolding_all rfl
  rw [h95, h99]
  norm_num

end HFT
